import Mathlib

/-!
Verification of the SQL Anywhere MCP server's query validation pipeline
(`sqlanywhere_mcp/queries.py`, `db.py`, `models.py`), via a shallow
embedding of the Python source into Lean.

Strings are modelled as `List Char` (Python `str` over its ASCII subset,
which is all the validation logic inspects).  Python regular-expression
checks on these strings are translated into executable character-level
scanners; integers are `Nat` (the tool layer enforces `ge=1, le=10000`
on all caller-supplied limits, so no negative values reach this code).
Database row sets are modelled as an `available : List α` handed to the
embedded driver, with `fetchmany k` meaning `available.take k`.
-/

namespace SqlAnywhere

/-! ## Character classes and Python string primitives -/

/-- Python `str.strip` / regex `\s` whitespace (ASCII subset). -/
def isPySpace (c : Char) : Bool :=
  c == ' ' || c == '\t' || c == '\n' || c == '\r' || c == '\x0b' || c == '\x0c'

/-- Regex word character `\w` (ASCII): letters, digits, underscore.
This is also the identifier-continuation class `[a-zA-Z0-9_]` used by the
builder's validation regexes. -/
def isWordChar (c : Char) : Bool :=
  c.isAlpha || c.isDigit || c == '_'

/-- Identifier head class `[a-zA-Z_]`. -/
def isIdentStart (c : Char) : Bool :=
  c.isAlpha || c == '_'

/-- Python `str.upper` (ASCII). -/
def pyUpper (s : List Char) : List Char := s.map Char.toUpper

/-- Python `str.lower` (ASCII). -/
def pyLower (s : List Char) : List Char := s.map Char.toLower

/-- Remove leading whitespace (left half of Python `str.strip`). -/
def stripLeft (s : List Char) : List Char := s.dropWhile isPySpace

/-- Remove trailing whitespace (right half of Python `str.strip`). -/
def stripRight (s : List Char) : List Char :=
  ((s.reverse).dropWhile isPySpace).reverse

/-- Python `str.strip`. -/
def pyStrip (s : List Char) : List Char := stripRight (stripLeft s)

/-- One decimal digit as a character. -/
def digitChar (d : Nat) : Char := Char.ofNat (48 + d)

/-- Fuel-driven decimal printer (digits accumulate from the right). -/
def natCharsAux : Nat → Nat → List Char → List Char
  | 0, _, acc => acc
  | fuel + 1, n, acc =>
    let acc' := digitChar (n % 10) :: acc
    if n < 10 then acc' else natCharsAux fuel (n / 10) acc'

/-- Python `str(n)` for a natural number, as used by the f-string
`f"SELECT TOP {limit} ..."` in the builder. -/
def natChars (n : Nat) : List Char := natCharsAux (n + 1) n []

/-- Segments joined by single spaces; the assembled queries of
`query_builder` all have this shape. -/
def joinSpace : List (List Char) → List Char
  | [] => []
  | [s] => s
  | s :: rest => s ++ ' ' :: joinSpace rest

/-! ## Word-boundary keyword matching

Embeds `re.search(r"\bKW\b", s)`: the keyword occurs in `s` delimited on
both sides by a non-word character or the string edge.  `containsWordAux`
walks the string remembering the previous character to decide the left
boundary. -/

/-- The character before a candidate match is absent or a non-word char. -/
def boundaryOk : Option Char → Bool
  | none => true
  | some c => !isWordChar c

/-- The character right after the matched keyword is absent or non-word. -/
def afterOk (kw s : List Char) : Bool :=
  match s.drop kw.length with
  | [] => true
  | c :: _ => !isWordChar c

/-- Test that `kw` is a prefix of `s` ending at a right word boundary. -/
def matchOk (kw s : List Char) : Bool := kw.isPrefixOf s && afterOk kw s

/-- A whole-word occurrence of `kw` starts exactly here. -/
def wordAt (kw : List Char) (prev : Option Char) (s : List Char) : Bool :=
  boundaryOk prev && matchOk kw s

def containsWordAux (kw : List Char) : Option Char → List Char → Bool
  | prev, [] => wordAt kw prev []
  | prev, c :: rest => wordAt kw prev (c :: rest) || containsWordAux kw (some c) rest

/-- Embeds `re.search(r"\bKW\b", s) is not None` for an uppercase ASCII keyword
`kw` matched against `s`. -/
def containsWord (kw s : List Char) : Bool := containsWordAux kw none s

/-- Plain substring search (no boundaries), as in
`re.search(r";|--|/\*|\*/", s)`: some pattern occurs contiguously. -/
def hasSub (pat : List Char) : List Char → Bool
  | [] => pat.isPrefixOf []
  | c :: rest => pat.isPrefixOf (c :: rest) || hasSub pat rest

instance instDecEqExcept {ε α : Type} [DecidableEq ε] [DecidableEq α] :
    DecidableEq (Except ε α)
  | .error a, .error b =>
    if h : a = b then .isTrue (by rw [h])
    else .isFalse (by intro hh; cases hh; exact h rfl)
  | .error _, .ok _ => .isFalse (by intro hh; cases hh)
  | .ok _, .error _ => .isFalse (by intro hh; cases hh)
  | .ok a, .ok b =>
    if h : a = b then .isTrue (by rw [h])
    else .isFalse (by intro hh; cases hh; exact h rfl)

/-! ## queries.py — execute_query classification (lines 23–53) -/

/-- The eleven denylisted patterns of `queries.execute_query`
(lines 33–45), in source order. -/
def dangerousKeywords : List (List Char) :=
  [("DROP").toList, ("DELETE").toList, ("INSERT").toList, ("UPDATE").toList,
   ("CREATE").toList, ("ALTER").toList, ("TRUNCATE").toList, ("GRANT").toList,
   ("REVOKE").toList, ("EXEC").toList, ("EXECUTE").toList]

/-- The seven keywords of `queries.validate_query` (line 219). -/
def validateKeywords : List (List Char) :=
  [("DROP").toList, ("DELETE").toList, ("INSERT").toList, ("UPDATE").toList,
   ("CREATE").toList, ("ALTER").toList, ("TRUNCATE").toList]

inductive QueryError where
  | notASelect
  | dangerousKeyword (kw : List Char)
  | limitExceedsMax (requested ceiling : Nat)
  deriving DecidableEq, Repr

/-- Lines 23–53 of `queries.execute_query`: `cleaned_query = query.strip().upper()`,
reject unless it starts with `SELECT`, then reject on the first denylisted
keyword found as a whole word (the `re.IGNORECASE` flag is absorbed by the
uppercasing for ASCII input).  Returns the rejection, if any. -/
def classifyCheck (query : List Char) : Option QueryError :=
  let cleaned := pyUpper (pyStrip query)
  if !(("SELECT").toList.isPrefixOf cleaned) then
    some .notASelect
  else
    match dangerousKeywords.find? (fun kw => containsWord kw cleaned) with
    | some kw => some (.dangerousKeyword kw)
    | none => none

/-! ## db.py — ConnectionManager -/

/-- The row-limit configuration read from the environment in
`ConnectionManager.__init__` (db.py lines 21–22). -/
structure Config where
  default_max_rows : Nat
  max_rows_limit : Nat
  deriving DecidableEq, Repr

/-- Embeds `ConnectionManager._parse_authorized_users` (db.py lines 25–33):
`users_str = os.getenv("SQLANYWHERE_AUTHORIZED_USERS", "monitor,ExtensionsUser")`
then `[u.strip() for u in users_str.split(",") if u.strip()]`.  The
environment value is `none` when the variable is unset. -/
def parse_authorized_users (env : Option (List Char)) : List (List Char) :=
  let users_str := env.getD (("monitor,ExtensionsUser").toList)
  ((users_str.splitOn ',').map pyStrip).filter (fun u => !u.isEmpty)

/-- Embeds `ConnectionManager.execute_query_with_metadata` (db.py lines 243–290)
with the driver abstracted: `available` is the full result set the cursor
would produce, so `cursor.fetchmany(k)` is `available.take k` and
`cursor.fetchall()` is `available`.  Returns `(rows, row_count, has_more)`
(the wall-clock `execution_time` is dropped).  `max_rows = some 0` takes
the `fetchall` branch, mirroring Python's falsy `if max_rows:`. -/
def execute_query_with_metadata {α : Type} (available : List α)
    (max_rows : Option Nat) : List α × Nat × Bool :=
  match max_rows with
  | none => (available, available.length, false)
  | some m =>
    if m = 0 then (available, available.length, false)
    else
      let rows := available.take (m + 1)
      let has_more := decide (rows.length > m)
      let rows := if rows.length > m then rows.take m else rows
      (rows, rows.length, has_more)

/-! ## queries.py — execute_query (lines 9–112) -/

/-- Lines 55–66 of `queries.execute_query`: if no limit was supplied use
`cm.default_max_rows`; otherwise reject a limit above `cm.max_rows_limit`
and keep the requested value unchanged. -/
def resolveLimit (cfg : Config) (limit : Option Nat) : Except QueryError Nat :=
  match limit with
  | none => .ok cfg.default_max_rows
  | some l =>
    if l > cfg.max_rows_limit then .error (.limitExceedsMax l cfg.max_rows_limit)
    else .ok l

/-- Embeds `queries.execute_query` (lines 9–112) minus the markdown rendering:
classify the query (lines 23–53), resolve the row limit (lines 55–66),
then fetch through `execute_query_with_metadata` (line 69).  The driver's
result set is the `available` argument; a rejected query never touches it. -/
def execute_query {α : Type} (cfg : Config) (available : List α)
    (query : List Char) (limit : Option Nat) :
    Except QueryError (List α × Nat × Bool) :=
  match classifyCheck query with
  | some e => .error e
  | none =>
    match resolveLimit cfg limit with
    | .error e => .error e
    | .ok lim => .ok (execute_query_with_metadata available (some lim))

/-! ## queries.py — validate_query (lines 200–229) -/

inductive ValidateResult where
  | notASelect
  | dangerousKeyword (kw : List Char)
  | missingFrom
  | valid
  deriving DecidableEq, Repr

/-- Embeds `queries.validate_query` (lines 200–229): strip, require the uppercase
to start with `SELECT`, scan for the seven-keyword denylist
(`re.IGNORECASE`, embedded by matching the uppercase keyword against the
uppercased query), then require a whole-word `FROM`. -/
def validate_query (query : List Char) : ValidateResult :=
  let cleaned := pyStrip query
  if !(("SELECT").toList.isPrefixOf (pyUpper cleaned)) then
    .notASelect
  else
    match validateKeywords.find? (fun kw => containsWord kw (pyUpper cleaned)) with
    | some kw => .dangerousKeyword kw
    | none =>
      if !(containsWord (("FROM").toList) (pyUpper cleaned)) then .missingFrom
      else .valid

/-! ## queries.py + models.py — query_builder -/

inductive BuildError where
  | missingOwnerQualifier
  | invalidTableName (t : List Char)
  | invalidColumn (c : List Char)
  | limitTooLarge (l : Nat)
  | invalidWhere
  | invalidOrderBy (o : List Char)
  deriving DecidableEq, Repr

/-- One identifier `[a-zA-Z_][a-zA-Z0-9_]*` exactly. -/
def isIdent : List Char → Bool
  | [] => false
  | c :: rest => isIdentStart c && rest.all isWordChar

/-- Consume a leading maximal identifier; return the rest of the input, or
`none` when no identifier starts here. -/
def parseIdentPre : List Char → Option (List Char)
  | [] => none
  | c :: rest => if isIdentStart c then some (rest.dropWhile isWordChar) else none

/-- Embeds `re.match(r"^[a-zA-Z_][a-zA-Z0-9_]*(\.[a-zA-Z_][a-zA-Z0-9_]*)?$", t)`
(queries.py line 149): one identifier, optionally followed by a dot and a
second identifier. -/
def tableNameOk (t : List Char) : Bool :=
  match parseIdentPre t with
  | none => false
  | some rest =>
    match rest with
    | [] => true
    | '.' :: rest2 =>
      match parseIdentPre rest2 with
      | some [] => true
      | _ => false
    | _ => false

/-- Embeds `QueryBuilderInput.validate_table_name` (models.py lines 444–450): the
pydantic layer rejects any table name without a `.` before
`queries.query_builder` runs. -/
def validate_table_name (t : List Char) : Except BuildError Unit :=
  if t.contains '.' then .ok () else .error .missingOwnerQualifier

/-- The column tokens of queries.py line 159:
`[c.strip() for c in columns.split(",")]`. -/
def colTokens (columns : List Char) : List (List Char) :=
  (columns.splitOn ',').map pyStrip

/-- Lines 157–165: if `columns` is not the literal `*`, every
comma-separated, stripped token must be an identifier; the first failure
is reported with that token. -/
def columnsCheck (columns : List Char) : Except BuildError Unit :=
  if columns = ("*").toList then .ok ()
  else
    match (colTokens columns).find? (fun c => !isIdent c) with
    | some c => .error (.invalidColumn c)
    | none => .ok ()

/-- The four patterns of queries.py line 181, `r";|--|/\*|\*/"`. -/
def whereBadPats : List (List Char) :=
  [(";").toList, ("--").toList, ("/*").toList, ("*/").toList]

/-- Line 181: reject a WHERE clause containing a statement separator or
comment marker. -/
def whereCheck (w : List Char) : Except BuildError Unit :=
  if whereBadPats.any (fun p => hasSub p w) then .error .invalidWhere else .ok ()

/-- Case-insensitive match of a direction keyword (`ASC`/`DESC`) at the
head of `s`; returns the rest on success. -/
def matchDir (s : List Char) : Option (List Char) :=
  if ("ASC").toList.isPrefixOf (pyUpper s) then some (s.drop 3)
  else if ("DESC").toList.isPrefixOf (pyUpper s) then some (s.drop 4)
  else none

/-- Fuel-driven matcher for the order-by regex (queries.py line 189)
`^ident(\s+(ASC|DESC))?(,\s*ident(\s+(ASC|DESC))?)*$` (IGNORECASE).
After an identifier, either the input ends, or a comma (then `\s*`) starts
the next item, or whitespace followed by a direction keyword must be
followed immediately by end or comma. -/
def orderSeqAux : Nat → List Char → Bool
  | 0, _ => false
  | fuel + 1, s =>
    match parseIdentPre s with
    | none => false
    | some rest =>
      match rest with
      | [] => true
      | ',' :: r => orderSeqAux fuel (r.dropWhile isPySpace)
      | c :: _ =>
        if isPySpace c then
          match matchDir (rest.dropWhile isPySpace) with
          | none => false
          | some r2 =>
            match r2 with
            | [] => true
            | ',' :: r3 => orderSeqAux fuel (r3.dropWhile isPySpace)
            | _ => false
        else false

/-- The `re.match` of the ORDER BY pattern against the whole clause. -/
def orderByOk (o : List Char) : Bool := orderSeqAux (o.length + 1) o

/-- Lines 167–176 of `queries.query_builder`: the base
`SELECT [TOP limit] columns FROM table` string.  `limit = some 0` skips the
`TOP` clause (Python falsy `if limit:`); a non-zero limit above 10000 is
rejected. -/
def build_base (columns table_name : List Char) (limit : Option Nat) :
    Except BuildError (List Char) :=
  match limit with
  | some l =>
    if l ≠ 0 then
      if l > 10000 then .error (.limitTooLarge l)
      else .ok (("SELECT TOP ").toList ++ natChars l ++ (" ").toList ++
                columns ++ (" FROM ").toList ++ table_name)
    else .ok (("SELECT ").toList ++ columns ++ (" FROM ").toList ++ table_name)
  | none => .ok (("SELECT ").toList ++ columns ++ (" FROM ").toList ++ table_name)

/-- Lines 178–186: append ` WHERE w` after checking the clause for
separators and comment markers; an empty or absent clause is skipped
(Python falsy `if where:`). -/
def build_where (q1 : List Char) : Option (List Char) → Except BuildError (List Char)
  | some w =>
    if w ≠ [] then
      match whereCheck w with
      | .error e => .error e
      | .ok _ => .ok (q1 ++ (" WHERE ").toList ++ w)
    else .ok q1
  | none => .ok q1

/-- Lines 188–194: append ` ORDER BY o` after matching the order-by
pattern; an empty or absent clause is skipped. -/
def build_order (q2 : List Char) : Option (List Char) → Except BuildError (List Char)
  | some o =>
    if o ≠ [] then
      if !orderByOk o then .error (.invalidOrderBy o)
      else .ok (q2 ++ (" ORDER BY ").toList ++ o)
    else .ok q2
  | none => .ok q2

/-- Embeds `queries.query_builder` lines 147–194: validate the table name
(queries.py regex line 149), the columns (lines 157–165), then assemble
`SELECT [TOP limit] columns FROM table [WHERE w] [ORDER BY o]`, validating
`where`/`order_by` as each clause is appended.  Returns the SQL string that
line 197 hands to `execute_query`. -/
def query_builder_build (table_name columns : List Char)
    (where_ order_by : Option (List Char)) (limit : Option Nat) :
    Except BuildError (List Char) :=
  if !tableNameOk table_name then .error (.invalidTableName table_name)
  else
    match columnsCheck columns with
    | .error e => .error e
    | .ok _ =>
      match build_base columns table_name limit with
      | .error e => .error e
      | .ok q1 =>
        match build_where q1 where_ with
        | .error e => .error e
        | .ok q2 => build_order q2 order_by

/-- The space-separated segments contributed by the `TOP` clause. -/
def limitSegs (limit : Option Nat) : List (List Char) :=
  match limit with
  | some l => if l ≠ 0 then [("TOP").toList, natChars l] else []
  | none => []

/-- The space-separated segments contributed by the `WHERE` clause. -/
def whereSegs : Option (List Char) → List (List Char)
  | some w => if w ≠ [] then [("WHERE").toList, w] else []
  | none => []

/-- The space-separated segments contributed by the `ORDER BY` clause. -/
def orderSegs : Option (List Char) → List (List Char)
  | some o => if o ≠ [] then [("ORDER").toList, ("BY").toList, o] else []
  | none => []

/-- The space-separated segments of a successfully assembled builder query,
in assembly order: `SELECT [TOP n] columns FROM table [WHERE w]
[ORDER BY o]`. -/
def buildSegs (table_name columns : List Char)
    (where_ order_by : Option (List Char)) (limit : Option Nat) :
    List (List Char) :=
  [("SELECT").toList] ++ limitSegs limit ++ [columns] ++
    [("FROM").toList, table_name] ++ whereSegs where_ ++ orderSegs order_by

/-- Gluing a (possibly empty) block of further segments onto a query. -/
def seglue : List (List Char) → List Char
  | [] => []
  | segs => ' ' :: joinSpace segs

inductive ToolError where
  | build (e : BuildError)
  | exec (e : QueryError)
  deriving DecidableEq, Repr

/-- The server-side `sqlanywhere_query_builder` tool: pydantic validates
the input model (`QueryBuilderInput.validate_table_name`, models.py), then
`queries.query_builder` builds the SQL and line 197 executes it via
`execute_query(query, limit)` with the caller's original limit. -/
def query_builder {α : Type} (cfg : Config) (available : List α)
    (table_name columns : List Char) (where_ order_by : Option (List Char))
    (limit : Option Nat) : Except ToolError (List α × Nat × Bool) :=
  match validate_table_name table_name with
  | .error e => .error (.build e)
  | .ok _ =>
    match query_builder_build table_name columns where_ order_by limit with
    | .error e => .error (.build e)
    | .ok q =>
      match execute_query cfg available q limit with
      | .error e => .error (.exec e)
      | .ok r => .ok r

/-- The table-name validation seen by a caller of the builder tool: the
pydantic check (models.py lines 444–450) followed by the regex check of
queries.py line 149. -/
def table_name_check (t : List Char) : Except BuildError Unit :=
  match validate_table_name t with
  | .error e => .error e
  | .ok _ => if !tableNameOk t then .error (.invalidTableName t) else .ok ()

/-! ## AuthorizationFilter (spec §4.2) — modelled from the spec

The owner-authorization pass is code of this repository that is not under
`src/`: `server.py`'s `sqlanywhere_execute_query` tool documents it
("Validates all FROM/JOIN clauses reference authorized owners only",
"Returns 'Access to owners X, Y is not authorized'") and calls
`queries.execute_query(query=..., limit=..., response_format=...)` — a
signature the `queries.py` under `src/` does not have — so the callee that
performs the check is missing.  The definitions below are therefore
modelled from the spec's words (§4.2, §9). -/

/-- Modelled from the spec: an owner/object identifier following `FROM` or
`JOIN` may be bare or bracket/quote-delimited (`"owner"."table"`,
`[owner].[table]`); the owner token itself is `[A-Za-z_][A-Za-z0-9_]*`.
Returns the identifier and the rest of the input. -/
def parseDelimIdent : List Char → Option (List Char × List Char)
  | '"' :: r =>
    let id := r.takeWhile isWordChar
    if isIdent id then
      match r.drop id.length with
      | '"' :: r2 => some (id, r2)
      | _ => none
    else none
  | '[' :: r =>
    let id := r.takeWhile isWordChar
    if isIdent id then
      match r.drop id.length with
      | ']' :: r2 => some (id, r2)
      | _ => none
    else none
  | s =>
    let id := s.takeWhile isWordChar
    if isIdent id then some (id, s.drop id.length) else none

/-- Modelled from the spec: immediately after a `FROM`/`JOIN` token comes
whitespace, then an `owner.object` pair (either part optionally
delimited); the collected candidate is the owner token. -/
def parseOwnerRef (s : List Char) : Option (List Char) :=
  match s with
  | [] => none
  | c :: _ =>
    if !isPySpace c then none
    else
      match parseDelimIdent (s.dropWhile isPySpace) with
      | none => none
      | some (owner, rest) =>
        match rest with
        | '.' :: r2 =>
          match parseDelimIdent r2 with
          | some _ => some owner
          | none => none
        | _ => none

/-- Modelled from the spec: scan the raw text for case-insensitive
whole-word `FROM`/`JOIN` tokens and collect the owner of each
`owner.object` reference immediately following one, lower-cased for
comparison. -/
def extractOwnersAux : Option Char → List Char → List (List Char)
  | _, [] => []
  | prev, c :: rest =>
    let here :=
      if boundaryOk prev &&
         (pyUpper ((c :: rest).take 4) = ("FROM").toList ||
          pyUpper ((c :: rest).take 4) = ("JOIN").toList) then
        match parseOwnerRef ((c :: rest).drop 4) with
        | some owner => [pyLower owner]
        | none => []
      else []
    here ++ extractOwnersAux (some c) rest

/-- Modelled from the spec: the distinct set of lower-cased owner names
referenced after `FROM`/`JOIN` tokens of the raw query. -/
def referencedOwners (q : List Char) : List (List Char) :=
  (extractOwnersAux none q).dedup

/-- Lexicographic comparison on character code points, for the spec's
"sorted for determinism" rejection message. -/
def lexLe : List Char → List Char → Bool
  | [], _ => true
  | _ :: _, [] => false
  | a :: as, b :: bs =>
    if a.val < b.val then true
    else if b.val < a.val then false
    else lexLe as bs

def insertSorted (x : List Char) : List (List Char) → List (List Char)
  | [] => [x]
  | y :: ys => if lexLe x y then x :: y :: ys else y :: insertSorted x ys

def sortOwners (l : List (List Char)) : List (List Char) :=
  l.foldr insertSorted []

inductive AuthOutcome where
  | accepted
  | unauthorizedOwner (offending : List (List Char))
  deriving DecidableEq, Repr

/-- The owners referenced by `q` that are outside the authorized set
(case-insensitive set difference, spec §4.2). -/
def unauthorizedOwners (q : List Char) (owners : List (List Char)) :
    List (List Char) :=
  (referencedOwners q).filter (fun o => !((owners.map pyLower).contains o))

/-- Modelled from the spec: `authorize(raw, authorizedOwners)` rejects with
`UNAUTHORIZED_OWNER` (listing the offending owners, sorted) exactly when
some referenced owner is outside the authorized set; otherwise — including
when no `FROM`/`JOIN` owner reference occurs at all — it accepts. -/
def authorize (q : List Char) (owners : List (List Char)) : AuthOutcome :=
  let unauth := unauthorizedOwners q owners
  if unauth.isEmpty then .accepted
  else .unauthorizedOwner (sortOwners unauth)

/-! ## Character-class facts -/

lemma pySpace_not_word {c : Char} (h : isPySpace c = true) : isWordChar c = false := by
  simp only [isPySpace, Bool.or_eq_true, beq_iff_eq] at h
  rcases h with ((((h | h) | h) | h) | h) | h <;> subst h <;> decide

lemma pySpace_toUpper {c : Char} (h : isPySpace c = true) : Char.toUpper c = c := by
  simp only [isPySpace, Bool.or_eq_true, beq_iff_eq] at h
  rcases h with ((((h | h) | h) | h) | h) | h <;> subst h <;> decide

lemma digit_not_alpha {c : Char} (h : c.isDigit = true) : c.isAlpha = false := by
  simp only [Char.isDigit, decide_eq_true_eq, Bool.and_eq_true, ge_iff_le] at h
  have h1 : (48 : Nat) ≤ c.val.toNat := h.1
  have h2 : c.val.toNat ≤ (57 : Nat) := h.2
  simp only [Char.isAlpha, Char.isUpper, Char.isLower, Bool.or_eq_false_iff,
    Bool.and_eq_false_iff, decide_eq_false_iff_not, ge_iff_le]
  constructor
  · left; intro hle; exact absurd (show (65 : Nat) ≤ c.val.toNat from hle) (by omega)
  · left; intro hle; exact absurd (show (97 : Nat) ≤ c.val.toNat from hle) (by omega)

/-! ## Word-boundary matching lemmas -/

lemma matchOk_cons (k c : Char) (kw s : List Char) :
    matchOk (k :: kw) (c :: s) = ((k == c) && matchOk kw s) := by
  simp only [matchOk, List.isPrefixOf, afterOk, List.length_cons, List.drop_succ_cons,
    Bool.and_assoc]

lemma matchOk_nil_right {kw : List Char} (h : kw ≠ []) : matchOk kw [] = false := by
  cases kw with
  | nil => exact absurd rfl h
  | cons k kw => simp [matchOk, List.isPrefixOf]

/-- A whole-word match cannot look past a non-word junction character:
matching against `a ++ j :: b` is the same as matching against `a`. -/
lemma matchOk_append {kw : List Char} (hw : ∀ c ∈ kw, isWordChar c = true)
    {j : Char} (hj : isWordChar j = false) (b : List Char) :
    ∀ a, matchOk kw (a ++ j :: b) = matchOk kw a := by
  induction kw with
  | nil =>
    intro a
    cases a with
    | nil => simp [matchOk, List.isPrefixOf, afterOk, hj]
    | cons c a' => simp [matchOk, List.isPrefixOf, afterOk]
  | cons k kw ih =>
    intro a
    cases a with
    | nil =>
      have hk : isWordChar k = true := hw k (List.mem_cons_self k kw)
      have hkj : (k == j) = false := by
        cases h : k == j with
        | false => rfl
        | true =>
          rw [beq_iff_eq] at h
          subst h
          rw [hk] at hj
          exact absurd hj (by simp)
      simp [matchOk, List.isPrefixOf, hkj]
    | cons c a' =>
      have hw' : ∀ x ∈ kw, isWordChar x = true := fun x hx =>
        hw x (List.mem_cons_of_mem k hx)
      rw [List.cons_append, matchOk_cons, matchOk_cons, ih hw' a']

lemma containsWordAux_congr (kw : List Char) {p q : Option Char}
    (h : boundaryOk p = boundaryOk q) : ∀ s, containsWordAux kw p s = containsWordAux kw q s := by
  intro s
  cases s with
  | nil => simp [containsWordAux, wordAt, h]
  | cons c rest => simp [containsWordAux, wordAt, h]

/-- Splitting the scan at a non-word junction character. -/
lemma containsWordAux_append {kw : List Char} (hne : kw ≠ [])
    (hw : ∀ c ∈ kw, isWordChar c = true) {j : Char} (hj : isWordChar j = false)
    (b : List Char) :
    ∀ (a : List Char) (prev : Option Char),
      containsWordAux kw prev (a ++ j :: b) =
        (containsWordAux kw prev a || containsWordAux kw none b) := by
  intro a
  induction a with
  | nil =>
    intro prev
    have h1 : matchOk kw (j :: b) = false := by
      rw [show (j :: b) = ([] ++ j :: b) from rfl, matchOk_append hw hj b []]
      exact matchOk_nil_right hne
    have h2 : containsWordAux kw (some j) b = containsWordAux kw none b :=
      containsWordAux_congr kw (by simp [boundaryOk, hj]) b
    have h3 : containsWordAux kw prev [] = false := by
      simp [containsWordAux, wordAt, matchOk_nil_right hne]
    rw [List.nil_append,
      show containsWordAux kw prev (j :: b) =
        (wordAt kw prev (j :: b) || containsWordAux kw (some j) b) from rfl,
      h2, h3, Bool.false_or, wordAt, h1, Bool.and_false, Bool.false_or]
  | cons c a' ih =>
    intro prev
    have e1 : containsWordAux kw prev ((c :: a') ++ j :: b) =
        (wordAt kw prev ((c :: a') ++ j :: b) ||
          containsWordAux kw (some c) (a' ++ j :: b)) := rfl
    have e2 : containsWordAux kw prev (c :: a') =
        (wordAt kw prev (c :: a') || containsWordAux kw (some c) a') := rfl
    have e3 : wordAt kw prev ((c :: a') ++ j :: b) = wordAt kw prev (c :: a') := by
      simp only [wordAt, matchOk_append hw hj b (c :: a')]
    rw [e1, e2, e3, ih (some c), Bool.or_assoc]

/-- `\bKW\b` search distributes over a non-word junction character. -/
lemma containsWord_junction {kw : List Char} (hne : kw ≠ [])
    (hw : ∀ c ∈ kw, isWordChar c = true) {j : Char} (hj : isWordChar j = false)
    (a b : List Char) :
    containsWord kw (a ++ j :: b) = (containsWord kw a || containsWord kw b) :=
  containsWordAux_append hne hw hj b a none

lemma containsWord_nil {kw : List Char} (hne : kw ≠ []) : containsWord kw [] = false := by
  simp [containsWord, containsWordAux, wordAt, matchOk_nil_right hne, boundaryOk]

/-- A successful scan for `k :: kws` witnesses `k` somewhere in the string. -/
lemma containsWordAux_mem_head {k : Char} {kws : List Char} :
    ∀ (s : List Char) (prev : Option Char),
      containsWordAux (k :: kws) prev s = true → k ∈ s := by
  intro s
  induction s with
  | nil =>
    intro prev h
    simp [containsWordAux, wordAt, matchOk, List.isPrefixOf] at h
  | cons c rest ih =>
    intro prev h
    simp only [containsWordAux, wordAt, Bool.or_eq_true, Bool.and_eq_true] at h
    rcases h with ⟨_, hm⟩ | h
    · simp only [matchOk, Bool.and_eq_true, List.isPrefixOf, Bool.and_eq_true,
        beq_iff_eq] at hm
      exact hm.1.1 ▸ List.mem_cons_self c rest
    · exact List.mem_cons_of_mem c (ih (some c) h)

/-- No whole word whose head is a word character occurs in a string of
non-word characters. -/
lemma containsWord_of_all_nonword {k : Char} {kws : List Char}
    (hk : isWordChar k = true) {s : List Char}
    (hs : ∀ c ∈ s, isWordChar c = false) : containsWord (k :: kws) s = false := by
  cases h : containsWord (k :: kws) s with
  | false => rfl
  | true =>
    have := containsWordAux_mem_head s none h
    rw [hs k this] at hk
    exact absurd hk (by simp)

/-- No keyword starting with a letter occurs in an all-digit string. -/
lemma containsWord_of_all_digits {k : Char} {kws : List Char}
    (hk : k.isAlpha = true) {s : List Char}
    (hs : ∀ c ∈ s, c.isDigit = true) : containsWord (k :: kws) s = false := by
  cases h : containsWord (k :: kws) s with
  | false => rfl
  | true =>
    have hmem := containsWordAux_mem_head s none h
    rw [digit_not_alpha (hs k hmem)] at hk
    exact absurd hk (by simp)

/-! ## Whitespace-stripping and case-folding invariance of keyword search -/

lemma containsWord_of_all_space {kw : List Char} (hne : kw ≠ [])
    (hw : ∀ c ∈ kw, isWordChar c = true) {s : List Char}
    (hs : ∀ c ∈ s, isPySpace c = true) : containsWord kw s = false := by
  cases kw with
  | nil => exact absurd rfl hne
  | cons k kws =>
    exact containsWord_of_all_nonword (hw k (List.mem_cons_self k kws))
      (fun c hc => pySpace_not_word (hs c hc))

lemma cw_append_spaces_right {kw : List Char} (hne : kw ≠ [])
    (hw : ∀ c ∈ kw, isWordChar c = true) (ws : List Char)
    (hws : ∀ c ∈ ws, isPySpace c = true) (a : List Char) :
    containsWord kw (a ++ ws) = containsWord kw a := by
  cases ws with
  | nil => rw [List.append_nil]
  | cons w ws' =>
    rw [containsWord_junction hne hw
        (pySpace_not_word (hws w (List.mem_cons_self w ws'))) a ws',
      containsWord_of_all_space hne hw
        (fun c hc => hws c (List.mem_cons_of_mem w hc)),
      Bool.or_false]

lemma cw_upper_stripLeft {kw : List Char} (hne : kw ≠ [])
    (hw : ∀ c ∈ kw, isWordChar c = true) :
    ∀ s, containsWord kw (pyUpper (stripLeft s)) = containsWord kw (pyUpper s) := by
  intro s
  induction s with
  | nil => rfl
  | cons c rest ih =>
    by_cases hc : isPySpace c = true
    · rw [show stripLeft (c :: rest) = stripLeft rest from by
          simp [stripLeft, List.dropWhile_cons, hc],
        ih,
        show pyUpper (c :: rest) = c :: pyUpper rest from by
          simp [pyUpper, pySpace_toUpper hc],
        show (c :: pyUpper rest) = ([] ++ c :: pyUpper rest) from rfl,
        containsWord_junction hne hw (pySpace_not_word hc) [] (pyUpper rest),
        containsWord_nil hne, Bool.false_or]
    · rw [show stripLeft (c :: rest) = c :: rest from by
          simp [stripLeft, List.dropWhile_cons, hc]]

/-- A string is its right-stripped core followed by trailing whitespace. -/
lemma stripRight_decomp (s : List Char) :
    ∃ ws, (∀ c ∈ ws, isPySpace c = true) ∧ s = stripRight s ++ ws := by
  refine ⟨((s.reverse).takeWhile isPySpace).reverse, ?_, ?_⟩
  · intro c hc
    rw [List.mem_reverse] at hc
    exact List.mem_takeWhile_imp hc
  · conv_lhs => rw [← List.reverse_reverse s,
      ← List.takeWhile_append_dropWhile isPySpace s.reverse]
    rw [List.reverse_append]
    rfl

lemma cw_upper_stripRight {kw : List Char} (hne : kw ≠ [])
    (hw : ∀ c ∈ kw, isWordChar c = true) (s : List Char) :
    containsWord kw (pyUpper (stripRight s)) = containsWord kw (pyUpper s) := by
  obtain ⟨ws, hws, hdecomp⟩ := stripRight_decomp s
  conv_rhs => rw [hdecomp]
  rw [show pyUpper (stripRight s ++ ws) = pyUpper (stripRight s) ++ pyUpper ws from
      List.map_append Char.toUpper _ _,
    cw_append_spaces_right hne hw (pyUpper ws) ?_ (pyUpper (stripRight s))]
  intro c hc
  rw [pyUpper, List.mem_map] at hc
  obtain ⟨d, hd, rfl⟩ := hc
  rw [pySpace_toUpper (hws d hd)]
  exact hws d hd

/-- The classifier's `strip()` does not affect whole-word keyword search on
the uppercased text. -/
lemma cw_upper_pyStrip {kw : List Char} (hne : kw ≠ [])
    (hw : ∀ c ∈ kw, isWordChar c = true) (s : List Char) :
    containsWord kw (pyUpper (pyStrip s)) = containsWord kw (pyUpper s) := by
  rw [pyStrip, cw_upper_stripRight hne hw, cw_upper_stripLeft hne hw]

/-! ## Prefix and dropWhile helpers -/

lemma isPrefixOf_append_left :
    ∀ (x y z : List Char), x.isPrefixOf y = true → x.isPrefixOf (y ++ z) = true := by
  intro x
  induction x with
  | nil => intro y z _; simp [List.isPrefixOf]
  | cons a x' ih =>
    intro y z h
    cases y with
    | nil => simp [List.isPrefixOf] at h
    | cons b y' =>
      simp only [List.isPrefixOf, Bool.and_eq_true] at h ⊢
      exact ⟨h.1, ih y' z h.2⟩

lemma dropWhile_append_of_all {p : Char → Bool} (l r : List Char)
    (h : ∀ c ∈ l, p c = true) : List.dropWhile p (l ++ r) = List.dropWhile p r := by
  rw [List.dropWhile_append, List.dropWhile_eq_nil_iff.mpr h]
  rfl

lemma dropWhile_eq_nil_of_all {p : Char → Bool} {l : List Char}
    (h : ∀ c ∈ l, p c = true) : List.dropWhile p l = [] :=
  List.dropWhile_eq_nil_iff.mpr h

/-- Right-stripping a string whose tail part contains a non-space character
leaves everything before that part untouched. -/
lemma stripRight_append_keep {b : List Char} (h : ∃ c ∈ b, isPySpace c = false)
    (a : List Char) : stripRight (a ++ b) = a ++ stripRight b := by
  unfold stripRight
  rw [List.reverse_append, List.dropWhile_append]
  have hne : List.dropWhile isPySpace b.reverse ≠ [] := by
    rw [Ne, List.dropWhile_eq_nil_iff]
    push_neg
    obtain ⟨c, hc, hcf⟩ := h
    exact ⟨c, List.mem_reverse.mpr hc, by simp [hcf]⟩
  rw [if_neg (by simpa [List.isEmpty_iff] using hne), List.reverse_append,
    List.reverse_reverse]

/-! ## Decimal printing facts -/

lemma digitChar_isDigit {d : Nat} (h : d < 10) : (digitChar d).isDigit = true := by
  interval_cases d <;> decide

lemma natCharsAux_all_digits :
    ∀ (fuel n : Nat) (acc : List Char), (∀ c ∈ acc, c.isDigit = true) →
      ∀ c ∈ natCharsAux fuel n acc, c.isDigit = true := by
  intro fuel
  induction fuel with
  | zero => intro n acc hacc c hc; exact hacc c hc
  | succ f ih =>
    intro n acc hacc c hc
    have hd : (digitChar (n % 10)).isDigit = true :=
      digitChar_isDigit (Nat.mod_lt _ (by omega))
    have hacc' : ∀ x ∈ digitChar (n % 10) :: acc, x.isDigit = true := by
      intro x hx
      rcases List.mem_cons.mp hx with h | h
      · exact h ▸ hd
      · exact hacc x h
    simp only [natCharsAux] at hc
    by_cases hn : n < 10
    · rw [if_pos hn] at hc
      exact hacc' c hc
    · rw [if_neg hn] at hc
      exact ih (n / 10) _ hacc' c hc

lemma natChars_all_digits (n : Nat) : ∀ c ∈ natChars n, c.isDigit = true :=
  natCharsAux_all_digits (n + 1) n [] (by simp)

/-! ## joinSpace and keyword search over assembled queries -/

lemma cw_joinSpace {kw : List Char} (hne : kw ≠ [])
    (hw : ∀ c ∈ kw, isWordChar c = true) :
    ∀ segs, containsWord kw (joinSpace segs) = segs.any (containsWord kw) := by
  intro segs
  induction segs with
  | nil => simp [joinSpace, containsWord_nil hne]
  | cons s rest ih =>
    cases rest with
    | nil => simp [joinSpace]
    | cons t rest' =>
      rw [show joinSpace (s :: t :: rest') = s ++ ' ' :: joinSpace (t :: rest') from rfl,
        containsWord_junction hne hw (by decide : isWordChar ' ' = false) s _, ih]
      simp [List.any_cons]

/-! ## Assembled-query shape lemmas -/

lemma joinSpace_append {A : List (List Char)} (hA : A ≠ []) (B : List (List Char)) :
    joinSpace (A ++ B) = joinSpace A ++ seglue B := by
  cases B with
  | nil => simp [seglue]
  | cons b B' =>
    induction A with
    | nil => exact absurd rfl hA
    | cons a A' ih =>
      cases A' with
      | nil => simp [joinSpace, seglue]
      | cons a' A'' =>
        rw [show (a :: a' :: A'') ++ b :: B' = a :: ((a' :: A'') ++ b :: B') from rfl,
          show joinSpace (a :: ((a' :: A'') ++ b :: B')) =
            a ++ ' ' :: joinSpace ((a' :: A'') ++ b :: B') from rfl,
          ih (by simp),
          show joinSpace (a :: a' :: A'') = a ++ ' ' :: joinSpace (a' :: A'') from rfl]
        simp [List.append_assoc]

lemma base_ok_shape {c t : List Char} {l : Option Nat} {q1 : List Char}
    (h : build_base c t l = .ok q1) :
    q1 = joinSpace ([("SELECT").toList] ++ limitSegs l ++
      [c, ("FROM").toList, t]) := by
  have eSel : ("SELECT ").toList = ("SELECT").toList ++ [' '] := by decide
  have eFrom : (" FROM ").toList = [' '] ++ ("FROM").toList ++ [' '] := by decide
  have eTop : ("SELECT TOP ").toList =
      ("SELECT").toList ++ [' '] ++ ("TOP").toList ++ [' '] := by decide
  have eSp : (" ").toList = [' '] := by decide
  cases l with
  | none =>
    simp only [build_base, Except.ok.injEq] at h
    subst h
    simp only [limitSegs, List.nil_append, joinSpace, eSel, eFrom]
    simp [List.append_assoc]
  | some n =>
    by_cases hn : n = 0
    · subst hn
      simp only [build_base, ne_eq, not_true_eq_false, if_false, Except.ok.injEq] at h
      subst h
      simp only [limitSegs, ne_eq, not_true_eq_false, if_false, List.nil_append,
        joinSpace, eSel, eFrom]
      simp [List.append_assoc]
    · by_cases hbig : n > 10000
      · simp only [build_base, ne_eq, hn, not_false_eq_true, if_true, hbig] at h
        cases h
      · simp only [build_base, ne_eq, hn, not_false_eq_true, if_true, hbig,
          if_false, Except.ok.injEq] at h
        subst h
        simp only [limitSegs, ne_eq, hn, not_false_eq_true, if_true, joinSpace,
          eTop, eFrom, eSp]
        simp [List.append_assoc]

lemma where_ok_shape {q1 : List Char} {w : Option (List Char)} {q2 : List Char}
    (h : build_where q1 w = .ok q2) : q2 = q1 ++ seglue (whereSegs w) := by
  have eW : (" WHERE ").toList = [' '] ++ ("WHERE").toList ++ [' '] := by decide
  cases w with
  | none =>
    simp only [build_where, Except.ok.injEq] at h
    subst h
    simp [whereSegs, seglue]
  | some ws =>
    by_cases hne : ws = []
    · subst hne
      simp only [build_where, ne_eq, not_true_eq_false, if_false, Except.ok.injEq] at h
      subst h
      simp [whereSegs, seglue]
    · simp only [build_where, ne_eq, hne, not_false_eq_true, if_true] at h
      cases hc : whereCheck ws with
      | error e => rw [hc] at h; cases h
      | ok u =>
        rw [hc] at h
        simp only [Except.ok.injEq] at h
        subst h
        simp only [whereSegs, ne_eq, hne, not_false_eq_true, if_true, seglue,
          joinSpace, eW]
        simp [List.append_assoc]

lemma order_ok_shape {q2 : List Char} {o : Option (List Char)} {q3 : List Char}
    (h : build_order q2 o = .ok q3) : q3 = q2 ++ seglue (orderSegs o) := by
  have eO : (" ORDER BY ").toList =
      [' '] ++ ("ORDER").toList ++ [' '] ++ ("BY").toList ++ [' '] := by decide
  cases o with
  | none =>
    simp only [build_order, Except.ok.injEq] at h
    subst h
    simp [orderSegs, seglue]
  | some os =>
    by_cases hne : os = []
    · subst hne
      simp only [build_order, ne_eq, not_true_eq_false, if_false, Except.ok.injEq] at h
      subst h
      simp [orderSegs, seglue]
    · cases hok : orderByOk os with
      | false =>
        simp only [build_order, ne_eq, hne, not_false_eq_true, if_true, hok,
          Bool.not_false, if_true] at h
        cases h
      | true =>
        simp only [build_order, ne_eq, hne, not_false_eq_true, if_true, hok,
          Bool.not_true, Bool.false_eq_true, if_false, Except.ok.injEq] at h
        subst h
        simp only [orderSegs, ne_eq, hne, not_false_eq_true, if_true, seglue,
          joinSpace, eO]
        simp [List.append_assoc]

/-- A successful build passes the table and column checks and assembles
exactly the space-joined clause segments, in the fixed order. -/
lemma build_ok_shape {t c : List Char} {w o : Option (List Char)} {l : Option Nat}
    {q : List Char} (h : query_builder_build t c w o l = .ok q) :
    tableNameOk t = true ∧ columnsCheck c = .ok () ∧
      q = joinSpace (buildSegs t c w o l) := by
  unfold query_builder_build at h
  cases hT : tableNameOk t with
  | false => rw [hT] at h; simp at h
  | true =>
    rw [hT] at h
    simp only [Bool.not_true, Bool.false_eq_true, if_false] at h
    cases hC : columnsCheck c with
    | error e => rw [hC] at h; dsimp only [] at h; cases h
    | ok u =>
      cases u
      rw [hC] at h
      dsimp only [] at h
      cases hB : build_base c t l with
      | error e => rw [hB] at h; dsimp only [] at h; cases h
      | ok q1 =>
        rw [hB] at h
        dsimp only [] at h
        cases hW : build_where q1 w with
        | error e => rw [hW] at h; dsimp only [] at h; cases h
        | ok q2 =>
          rw [hW] at h
          dsimp only [] at h
          refine ⟨rfl, rfl, ?_⟩
          have h1 := base_ok_shape hB
          have h2 := where_ok_shape hW
          have h3 := order_ok_shape h
          have hA1 : ([("SELECT").toList] ++ limitSegs l ++
              [c, ("FROM").toList, t] : List (List Char)) ≠ [] := by
            simp
          have hA2 : (([("SELECT").toList] ++ limitSegs l ++
              [c, ("FROM").toList, t]) ++ whereSegs w : List (List Char)) ≠ [] := by
            simp
          rw [h3, h2, h1, ← joinSpace_append hA1 (whereSegs w),
            ← joinSpace_append hA2 (orderSegs o)]
          simp [buildSegs, List.append_assoc]

/-! ## Denylist keyword facts -/

lemma dangerous_nonempty : ∀ kw ∈ dangerousKeywords, kw ≠ [] := by decide

lemma dangerous_words : ∀ kw ∈ dangerousKeywords, ∀ c ∈ kw, isWordChar c = true := by
  decide

lemma dangerous_alpha : ∀ kw ∈ dangerousKeywords, ∀ c ∈ kw, c.isAlpha = true := by
  decide

lemma validate_sub_dangerous : ∀ kw ∈ validateKeywords, kw ∈ dangerousKeywords := by
  decide

lemma dangerous_glue : ∀ kw ∈ dangerousKeywords,
    containsWord kw (("SELECT").toList) = false ∧
    containsWord kw (("TOP").toList) = false ∧
    containsWord kw (("FROM").toList) = false ∧
    containsWord kw (("WHERE").toList) = false ∧
    containsWord kw (("ORDER").toList) = false ∧
    containsWord kw (("BY").toList) = false := by decide

lemma containsWord_of_digits {kw : List Char} (hne : kw ≠ [])
    (halpha : ∀ c ∈ kw, c.isAlpha = true) {s : List Char}
    (hs : ∀ c ∈ s, c.isDigit = true) : containsWord kw s = false := by
  cases kw with
  | nil => exact absurd rfl hne
  | cons k kws =>
    exact containsWord_of_all_digits (halpha k (List.mem_cons_self k kws)) hs

lemma digit_toUpper {c : Char} (h : c.isDigit = true) : Char.toUpper c = c := by
  simp only [Char.isDigit, decide_eq_true_eq, Bool.and_eq_true, ge_iff_le] at h
  have h2 : c.val.toNat ≤ (57 : Nat) := h.2
  unfold Char.toUpper
  rw [if_neg]
  intro hcon
  exact absurd (show (97 : Nat) ≤ c.val.toNat from hcon.1) (by omega)

/-! ## Segment membership -/

lemma mem_limitSegs {x : List Char} {l : Option Nat} (hx : x ∈ limitSegs l) :
    x = ("TOP").toList ∨ ∃ n, x = natChars n := by
  cases l with
  | none => simp [limitSegs] at hx
  | some n =>
    by_cases hn : n = 0
    · subst hn; simp [limitSegs] at hx
    · simp only [limitSegs, ne_eq, hn, not_false_eq_true, if_true,
        List.mem_cons, List.mem_singleton, List.not_mem_nil, or_false] at hx
      rcases hx with h | h
      · exact Or.inl h
      · exact Or.inr ⟨n, h⟩

lemma mem_whereSegs {x : List Char} {w : Option (List Char)} (hx : x ∈ whereSegs w) :
    x = ("WHERE").toList ∨ w = some x := by
  cases w with
  | none => simp [whereSegs] at hx
  | some ws =>
    by_cases hne : ws = []
    · subst hne; simp [whereSegs] at hx
    · simp only [whereSegs, ne_eq, hne, not_false_eq_true, if_true,
        List.mem_cons, List.mem_singleton, List.not_mem_nil, or_false] at hx
      rcases hx with h | h
      · exact Or.inl h
      · exact Or.inr (by rw [h])

lemma mem_orderSegs {x : List Char} {o : Option (List Char)} (hx : x ∈ orderSegs o) :
    x = ("ORDER").toList ∨ x = ("BY").toList ∨ o = some x := by
  cases o with
  | none => simp [orderSegs] at hx
  | some os =>
    by_cases hne : os = []
    · subst hne; simp [orderSegs] at hx
    · simp only [orderSegs, ne_eq, hne, not_false_eq_true, if_true,
        List.mem_cons, List.mem_singleton, List.not_mem_nil, or_false] at hx
      rcases hx with h | h | h
      · exact Or.inl h
      · exact Or.inr (Or.inl h)
      · exact Or.inr (Or.inr (by rw [h]))

lemma mem_buildSegs {t c x : List Char} {w o : Option (List Char)} {l : Option Nat}
    (hx : x ∈ buildSegs t c w o l) :
    x = ("SELECT").toList ∨ x = ("TOP").toList ∨ (∃ n, x = natChars n) ∨
      x = c ∨ x = ("FROM").toList ∨ x = t ∨ x = ("WHERE").toList ∨ w = some x ∨
      x = ("ORDER").toList ∨ x = ("BY").toList ∨ o = some x := by
  simp only [buildSegs, List.append_assoc, List.mem_append, List.mem_singleton,
    List.mem_cons, List.not_mem_nil, or_false] at hx
  rcases hx with h | h | h | (h | h) | h | h
  · exact Or.inl h
  · rcases mem_limitSegs h with h' | h'
    · exact Or.inr (Or.inl h')
    · exact Or.inr (Or.inr (Or.inl h'))
  · exact Or.inr (Or.inr (Or.inr (Or.inl h)))
  · exact Or.inr (Or.inr (Or.inr (Or.inr (Or.inl h))))
  · exact Or.inr (Or.inr (Or.inr (Or.inr (Or.inr (Or.inl h)))))
  · rcases mem_whereSegs h with h'' | h''
    · exact Or.inr (Or.inr (Or.inr (Or.inr (Or.inr (Or.inr (Or.inl h''))))))
    · exact Or.inr (Or.inr (Or.inr (Or.inr (Or.inr (Or.inr (Or.inr (Or.inl h'')))))))
  · rcases mem_orderSegs h with h'' | h'' | h''
    · exact Or.inr (Or.inr (Or.inr (Or.inr (Or.inr (Or.inr (Or.inr (Or.inr
        (Or.inl h''))))))))
    · exact Or.inr (Or.inr (Or.inr (Or.inr (Or.inr (Or.inr (Or.inr (Or.inr
        (Or.inr (Or.inl h'')))))))))
    · exact Or.inr (Or.inr (Or.inr (Or.inr (Or.inr (Or.inr (Or.inr (Or.inr
        (Or.inr (Or.inr h'')))))))))

/-! ## Uppercasing assembled queries -/

lemma pyUpper_joinSpace : ∀ segs, pyUpper (joinSpace segs) = joinSpace (segs.map pyUpper) := by
  intro segs
  induction segs with
  | nil => rfl
  | cons s rest ih =>
    cases rest with
    | nil => rfl
    | cons t r' =>
      rw [show joinSpace (s :: t :: r') = s ++ ' ' :: joinSpace (t :: r') from rfl,
        show pyUpper (s ++ ' ' :: joinSpace (t :: r')) =
          pyUpper s ++ Char.toUpper ' ' :: pyUpper (joinSpace (t :: r')) from by
            simp [pyUpper],
        ih, show Char.toUpper ' ' = ' ' from by decide,
        show (s :: t :: r').map pyUpper = pyUpper s :: (t :: r').map pyUpper from rfl,
        show joinSpace (pyUpper s :: (t :: r').map pyUpper) =
          pyUpper s ++ ' ' :: joinSpace ((t :: r').map pyUpper) from by
            cases r' <;> rfl]

/-- A built query's uppercase contains no denylisted keyword, provided none
of the caller's fields does.  The fixed glue (`SELECT`, `TOP`, digits,
`FROM`, `WHERE`, `ORDER`, `BY`) never contributes one. -/
lemma cw_built_false {kw : List Char} (hkw : kw ∈ dangerousKeywords)
    {t c : List Char} {w o : Option (List Char)} {l : Option Nat}
    (ht : containsWord kw (pyUpper t) = false)
    (hc : containsWord kw (pyUpper c) = false)
    (hw : ∀ ws, w = some ws → containsWord kw (pyUpper ws) = false)
    (ho : ∀ os, o = some os → containsWord kw (pyUpper os) = false) :
    containsWord kw (pyUpper (joinSpace (buildSegs t c w o l))) = false := by
  have hne := dangerous_nonempty kw hkw
  have hword := dangerous_words kw hkw
  have halpha := dangerous_alpha kw hkw
  have hglue := dangerous_glue kw hkw
  rw [pyUpper_joinSpace, cw_joinSpace hne hword, List.any_eq_false]
  intro x hx
  rw [List.mem_map] at hx
  obtain ⟨y, hy, rfl⟩ := hx
  simp only [Bool.not_eq_true]
  rcases mem_buildSegs hy with h | h | ⟨n, h⟩ | h | h | h | h | h | h | h | h
  · rw [h, show pyUpper (("SELECT").toList) = ("SELECT").toList from by decide]
    exact hglue.1
  · rw [h, show pyUpper (("TOP").toList) = ("TOP").toList from by decide]
    exact hglue.2.1
  · rw [h]
    refine containsWord_of_digits hne halpha ?_
    intro ch hch
    rw [pyUpper, List.mem_map] at hch
    obtain ⟨d, hd, rfl⟩ := hch
    rw [digit_toUpper (natChars_all_digits n d hd)]
    exact natChars_all_digits n d hd
  · rw [h]; exact hc
  · rw [h, show pyUpper (("FROM").toList) = ("FROM").toList from by decide]
    exact hglue.2.2.1
  · rw [h]; exact ht
  · rw [h, show pyUpper (("WHERE").toList) = ("WHERE").toList from by decide]
    exact hglue.2.2.2.1
  · exact hw y (by rw [h])
  · rw [h, show pyUpper (("ORDER").toList) = ("ORDER").toList from by decide]
    exact hglue.2.2.2.2.1
  · rw [h, show pyUpper (("BY").toList) = ("BY").toList from by decide]
    exact hglue.2.2.2.2.2
  · exact ho y (by rw [h])

/-! ## The SELECT prefix of assembled queries -/

lemma seglue_ne {B : List (List Char)} (h : B ≠ []) :
    seglue B = ' ' :: joinSpace B := by
  cases B with
  | nil => exact absurd rfl h
  | cons b B' => rfl

/-- An assembled builder query, split as `SELECT …␣` ++ `FROM …`. -/
lemma built_split (t c : List Char) (w o : Option (List Char)) (l : Option Nat) :
    joinSpace (buildSegs t c w o l) =
      (("SELECT ").toList ++ (joinSpace (limitSegs l ++ [c]) ++ [' '])) ++
        (("FROM ").toList ++ joinSpace ([t] ++ whereSegs w ++ orderSegs o)) := by
  have h1 : buildSegs t c w o l =
      ([("SELECT").toList] ++ (limitSegs l ++ [c])) ++
        ([("FROM").toList] ++ ([t] ++ whereSegs w ++ orderSegs o)) := by
    simp [buildSegs, List.append_assoc]
  have hlc : limitSegs l ++ [c] ≠ [] := by
    cases limitSegs l <;> simp
  rw [h1, joinSpace_append (by simp), joinSpace_append (by simp) (limitSegs l ++ [c]),
    seglue_ne hlc,
    seglue_ne (by simp : ([("FROM").toList] ++ ([t] ++ whereSegs w ++ orderSegs o) :
      List (List Char)) ≠ []),
    show ([("FROM").toList] ++ ([t] ++ whereSegs w ++ orderSegs o) :
        List (List Char)) =
      ("FROM").toList :: t :: (whereSegs w ++ orderSegs o) from by simp,
    show joinSpace (("FROM").toList :: t :: (whereSegs w ++ orderSegs o)) =
      ("FROM").toList ++ ' ' :: joinSpace (t :: (whereSegs w ++ orderSegs o)) from rfl,
    show joinSpace [("SELECT").toList] = ("SELECT").toList from rfl,
    show ("SELECT ").toList = ("SELECT").toList ++ [' '] from by decide,
    show ("FROM ").toList = ("FROM").toList ++ [' '] from by decide]
  simp [List.append_assoc]

lemma startsSelect_built (mid tail : List Char) :
    ("SELECT").toList.isPrefixOf
      (pyUpper (pyStrip ((("SELECT ").toList ++ mid) ++
        (("FROM ").toList ++ tail)))) = true := by
  have e1 : (("SELECT ").toList ++ mid) ++ (("FROM ").toList ++ tail) =
      'S' :: ((("ELECT ").toList ++ mid) ++ (("FROM ").toList ++ tail)) := by
    simp [show ("SELECT ").toList = 'S' :: ("ELECT ").toList from by decide]
  have hsl : stripLeft ((("SELECT ").toList ++ mid) ++ (("FROM ").toList ++ tail)) =
      (("SELECT ").toList ++ mid) ++ (("FROM ").toList ++ tail) := by
    conv_lhs => rw [e1]
    rw [stripLeft, List.dropWhile_cons,
      if_neg (by simp [show isPySpace 'S' = false from by decide]), ← e1]
  have hsr : stripRight ((("SELECT ").toList ++ mid) ++ (("FROM ").toList ++ tail)) =
      (("SELECT ").toList ++ mid) ++ stripRight (("FROM ").toList ++ tail) :=
    stripRight_append_keep
      ⟨'F', List.mem_append_left _ (by decide), by decide⟩ _
  rw [pyStrip, hsl, hsr, List.append_assoc,
    show pyUpper (("SELECT ").toList ++
        (mid ++ stripRight (("FROM ").toList ++ tail))) =
      ("SELECT ").toList ++ pyUpper (mid ++ stripRight (("FROM ").toList ++ tail))
      from by
        rw [pyUpper, List.map_append,
          show List.map Char.toUpper (("SELECT ").toList) = ("SELECT ").toList
            from by decide]
        rfl]
  exact isPrefixOf_append_left _ _ _ (by decide)

/-! ## Strip idempotence and misc utilities -/

lemma stripLeft_idem (s : List Char) : stripLeft (stripLeft s) = stripLeft s :=
  List.dropWhile_idempotent _ _

lemma stripRight_idem (s : List Char) : stripRight (stripRight s) = stripRight s := by
  unfold stripRight
  rw [List.reverse_reverse, List.dropWhile_idempotent]

lemma stripLeft_stripRight {t : List Char} (h : stripLeft t = t) :
    stripLeft (stripRight t) = stripRight t := by
  cases t with
  | nil => rfl
  | cons c rest =>
    have hc : isPySpace c = false := by
      by_contra hcc
      rw [Bool.not_eq_false] at hcc
      have he : stripLeft (c :: rest) = List.dropWhile isPySpace rest := by
        simp [stripLeft, List.dropWhile_cons, hcc]
      rw [he] at h
      have hlen := congrArg List.length h
      have hle := (List.dropWhile_sublist (l := rest) (p := isPySpace)).length_le
      simp at hlen
      omega
    obtain ⟨ws, hws, hdec⟩ := stripRight_decomp (c :: rest)
    cases hsr : stripRight (c :: rest) with
    | nil => rfl
    | cons d X =>
      rw [hsr, List.cons_append] at hdec
      have hd : c = d := by
        injection hdec
      subst hd
      simp [stripLeft, List.dropWhile_cons, hc]

lemma pyStrip_idem (s : List Char) : pyStrip (pyStrip s) = pyStrip s := by
  unfold pyStrip
  rw [stripLeft_stripRight (stripLeft_idem s), stripRight_idem]

lemma find?_first {α : Type} {p : α → Bool} {pre post : List α} {bad : α}
    (hpre : ∀ x ∈ pre, p x = false) (hbad : p bad = true) :
    List.find? p (pre ++ bad :: post) = some bad := by
  induction pre with
  | nil => simp [List.find?_cons_of_pos _ hbad]
  | cons a pre' ih =>
    rw [List.cons_append,
      List.find?_cons_of_neg _ (by simp [hpre a (List.mem_cons_self a pre')]),
      ih (fun x hx => hpre x (List.mem_cons_of_mem a hx))]

/-- Unfolding of `classifyCheck` (the `let` zeta-reduced). -/
lemma classifyCheck_eq (q : List Char) :
    classifyCheck q =
      (if !(("SELECT").toList.isPrefixOf (pyUpper (pyStrip q))) then
        some .notASelect
      else
        match dangerousKeywords.find?
            (fun kw => containsWord kw (pyUpper (pyStrip q))) with
        | some kw => some (.dangerousKeyword kw)
        | none => none) := rfl

/-- Unfolding of `validate_query` (the `let` zeta-reduced). -/
lemma validate_query_eq (q : List Char) :
    validate_query q =
      (if !(("SELECT").toList.isPrefixOf (pyUpper (pyStrip q))) then
        .notASelect
      else
        match validateKeywords.find?
            (fun kw => containsWord kw (pyUpper (pyStrip q))) with
        | some kw => .dangerousKeyword kw
        | none =>
          if !(containsWord (("FROM").toList) (pyUpper (pyStrip q))) then
            .missingFrom
          else .valid) := rfl

/-! ## Claim theorems -/

/-- C4: every input whose whitespace-trimmed, uppercased form does not
begin with `SELECT` is rejected with a not-a-SELECT outcome by both
`execute_query` and `validate_query`; the executor's rejection holds for
every driver result set `available`, so no database call is consulted. -/
theorem C4_not_a_select (q : List Char)
    (h : ("SELECT").toList.isPrefixOf (pyUpper (pyStrip q)) = false) :
    (∀ (α : Type) (cfg : Config) (available : List α) (limit : Option Nat),
      execute_query cfg available q limit = .error .notASelect) ∧
    validate_query q = .notASelect := by
  have hcls : classifyCheck q = some .notASelect := by
    rw [classifyCheck_eq, h]
    rfl
  refine ⟨?_, ?_⟩
  · intro α cfg av lim
    unfold execute_query
    rw [hcls]
  · rw [validate_query_eq, h]
    rfl

/-- C4 witness at `"DROP TABLE x"`. -/
theorem C4_witness :
    execute_query ⟨100, 10000⟩ ([0] : List Nat) (("DROP TABLE x").toList) none =
      .error .notASelect ∧
    validate_query (("DROP TABLE x").toList) = .notASelect :=
  ⟨(C4_not_a_select _ (by decide)).1 Nat ⟨100, 10000⟩ [0] none,
   (C4_not_a_select _ (by decide)).2⟩

/-- C5: for a positive effective limit `n` the executor requests `n + 1`
rows from the driver (its behaviour depends only on the first `n + 1` rows
available); when the driver hands back more than `n` rows, exactly the
first `n` are returned with `has_more = true`; otherwise all rows are
returned with `has_more = false`. -/
theorem C5_truncation_probe (α : Type) (available : List α) (n : Nat)
    (hn : 0 < n) :
    (available.length > n →
      execute_query_with_metadata available (some n) =
        (available.take n, n, true)) ∧
    (available.length ≤ n →
      execute_query_with_metadata available (some n) =
        (available, available.length, false)) ∧
    (∀ available' : List α, available.take (n + 1) = available'.take (n + 1) →
      execute_query_with_metadata available (some n) =
        execute_query_with_metadata available' (some n)) := by
  have hne : ¬(n = 0) := by omega
  have heq : ∀ (av : List α), execute_query_with_metadata av (some n) =
      ((if (av.take (n + 1)).length > n then (av.take (n + 1)).take n
        else av.take (n + 1)),
       (if (av.take (n + 1)).length > n then (av.take (n + 1)).take n
        else av.take (n + 1)).length,
       decide ((av.take (n + 1)).length > n)) := by
    intro av
    simp only [execute_query_with_metadata, if_neg hne]
  refine ⟨?_, ?_, ?_⟩
  · intro hlen
    have h1 : (available.take (n + 1)).length = n + 1 := by
      rw [List.length_take]; omega
    have hc : (available.take (n + 1)).length > n := by omega
    rw [heq, if_pos hc, decide_eq_true hc, List.take_take,
      show min n (n + 1) = n from by omega, List.length_take,
      show min n available.length = n from by omega]
  · intro hlen
    have h1 : available.take (n + 1) = available :=
      List.take_of_length_le (by omega)
    have hc : ¬((available.take (n + 1)).length > n) := by rw [h1]; omega
    rw [heq, if_neg hc, decide_eq_false hc, h1]
  · intro av' hsame
    rw [heq, heq, hsame]

/-- C5 witness: 4 rows available, limit 3 (truncated) and limit 4 exactly
(not truncated). -/
theorem C5_witness :
    execute_query_with_metadata [10, 20, 30, 40] (some 3) = ([10, 20, 30], 3, true) ∧
    execute_query_with_metadata [10, 20, 30, 40] (some 4) =
      ([10, 20, 30, 40], 4, false) :=
  ⟨(C5_truncation_probe Nat [10, 20, 30, 40] 3 (by decide)).1 (by decide),
   (C5_truncation_probe Nat [10, 20, 30, 40] 4 (by decide)).2.1 (by decide)⟩

/-- C6: in `execute_query`, an absent limit resolves to the configured
`default_max_rows`; a limit above `max_rows_limit` fails with a
limit-exceeds error instead of being clamped; a limit within the ceiling
is used unchanged as the `max_rows` handed to the driver. -/
theorem C6_effective_limit (cfg : Config) :
    resolveLimit cfg none = .ok cfg.default_max_rows ∧
    (∀ l : Nat, cfg.max_rows_limit < l →
      resolveLimit cfg (some l) = .error (.limitExceedsMax l cfg.max_rows_limit)) ∧
    (∀ l : Nat, l ≤ cfg.max_rows_limit → resolveLimit cfg (some l) = .ok l) ∧
    (∀ (α : Type) (available : List α) (q : List Char) (l : Nat),
      classifyCheck q = none → cfg.max_rows_limit < l →
      execute_query cfg available q (some l) =
        .error (.limitExceedsMax l cfg.max_rows_limit)) ∧
    (∀ (α : Type) (available : List α) (q : List Char),
      classifyCheck q = none →
      execute_query cfg available q none =
        .ok (execute_query_with_metadata available (some cfg.default_max_rows))) ∧
    (∀ (α : Type) (available : List α) (q : List Char) (l : Nat),
      classifyCheck q = none → l ≤ cfg.max_rows_limit →
      execute_query cfg available q (some l) =
        .ok (execute_query_with_metadata available (some l))) := by
  have hr1 : resolveLimit cfg none = .ok cfg.default_max_rows := rfl
  have hr2 : ∀ l : Nat, cfg.max_rows_limit < l →
      resolveLimit cfg (some l) = .error (.limitExceedsMax l cfg.max_rows_limit) := by
    intro l hl
    show (if l > cfg.max_rows_limit
        then (Except.error (QueryError.limitExceedsMax l cfg.max_rows_limit))
        else Except.ok l) =
      Except.error (QueryError.limitExceedsMax l cfg.max_rows_limit)
    rw [if_pos hl]
  have hr3 : ∀ l : Nat, l ≤ cfg.max_rows_limit →
      resolveLimit cfg (some l) = .ok l := by
    intro l hl
    show (if l > cfg.max_rows_limit
        then (Except.error (QueryError.limitExceedsMax l cfg.max_rows_limit))
        else Except.ok l) = Except.ok l
    rw [if_neg (by omega)]
  refine ⟨hr1, hr2, hr3, ?_, ?_, ?_⟩
  · intro α av q l hq hl
    unfold execute_query
    rw [hq, hr2 l hl]
  · intro α av q hq
    unfold execute_query
    rw [hq, hr1]
  · intro α av q l hq hl
    unfold execute_query
    rw [hq, hr3 l hl]

/-- C6 witness with `default_max_rows = 100`, `max_rows_limit = 10000`:
requested 20000 fails, absent limit resolves to 100, requested 500 is used
unchanged. -/
theorem C6_witness :
    resolveLimit ⟨100, 10000⟩ none = .ok 100 ∧
    resolveLimit ⟨100, 10000⟩ (some 20000) = .error (.limitExceedsMax 20000 10000) ∧
    execute_query ⟨100, 10000⟩ ([1, 2] : List Nat) (("SELECT * FROM t").toList)
      (some 20000) = .error (.limitExceedsMax 20000 10000) ∧
    execute_query ⟨100, 10000⟩ ([1, 2] : List Nat) (("SELECT * FROM t").toList)
      (some 500) = .ok ([1, 2], 2, false) :=
  ⟨(C6_effective_limit ⟨100, 10000⟩).1,
   (C6_effective_limit ⟨100, 10000⟩).2.1 20000 (by decide),
   (C6_effective_limit ⟨100, 10000⟩).2.2.2.1 Nat [1, 2]
     (("SELECT * FROM t").toList) 20000 (by decide) (by decide),
   by
    rw [(C6_effective_limit ⟨100, 10000⟩).2.2.2.2.2 Nat [1, 2]
      (("SELECT * FROM t").toList) 500 (by decide) (by decide)]
    rfl⟩

/-- Unfolding of `parse_authorized_users` at a supplied value. -/
lemma parse_authorized_users_some (v : List Char) :
    parse_authorized_users (some v) =
      ((v.splitOn ',').map pyStrip).filter (fun u => !u.isEmpty) := rfl

/-- Unfolding of `authorize` (the `let` zeta-reduced). -/
lemma authorize_eq (q : List Char) (owners : List (List Char)) :
    authorize q owners =
      (if (unauthorizedOwners q owners).isEmpty then .accepted
       else .unauthorizedOwner (sortOwners (unauthorizedOwners q owners))) := rfl

/-- C7: the builder tool's table-name validation (pydantic
`validate_table_name` followed by the queries.py regex) rejects any table
name without a `.` with the distinct missing-owner error, and accepts
`owner.Table` whenever both parts are identifiers; the two failure modes
are distinct errors. -/
theorem C7_owner_separator (v : List Char) :
    (v.contains '.' = false →
      table_name_check v = .error .missingOwnerQualifier) ∧
    (∀ a b : List Char, isIdent a = true → isIdent b = true →
      v = a ++ '.' :: b → table_name_check v = .ok ()) ∧
    (∀ t' : List Char,
      BuildError.missingOwnerQualifier ≠ BuildError.invalidTableName t') := by
  refine ⟨?_, ?_, ?_⟩
  · intro h
    unfold table_name_check validate_table_name
    rw [h]
    rfl
  · rintro a b ha hb rfl
    have hcontains : (a ++ '.' :: b).contains '.' = true :=
      List.elem_eq_true_of_mem
        (List.mem_append_right a (List.mem_cons_self _ _))
    have hok : tableNameOk (a ++ '.' :: b) = true := by
      cases a with
      | nil => simp [isIdent] at ha
      | cons c rest =>
        simp only [isIdent, Bool.and_eq_true, List.all_eq_true] at ha
        cases b with
        | nil => simp [isIdent] at hb
        | cons c' rest' =>
          simp only [isIdent, Bool.and_eq_true, List.all_eq_true] at hb
          have h1 : parseIdentPre (c :: (rest ++ '.' :: c' :: rest')) =
              some ((rest ++ '.' :: c' :: rest').dropWhile isWordChar) := by
            simp [parseIdentPre, ha.1]
          have h2 : (rest ++ '.' :: c' :: rest').dropWhile isWordChar =
              '.' :: c' :: rest' := by
            rw [dropWhile_append_of_all rest _ (fun x hx => ha.2 x hx),
              List.dropWhile_cons,
              if_neg (by simp [show isWordChar '.' = false from by decide])]
          have h3 : parseIdentPre (c' :: rest') =
              some (rest'.dropWhile isWordChar) := by
            simp [parseIdentPre, hb.1]
          have h4 : rest'.dropWhile isWordChar = [] :=
            dropWhile_eq_nil_of_all (fun x hx => hb.2 x hx)
          rw [show (c :: rest) ++ '.' :: c' :: rest' =
            c :: (rest ++ '.' :: c' :: rest') from rfl]
          simp [tableNameOk, h1, h2, h3, h4]
    simp [table_name_check, validate_table_name, hcontains, hok]
  · intro t' h
    exact BuildError.noConfusion h

/-- C7 witness: `"Part"` is rejected with the missing-owner error while
`"monitor.Part"` is accepted. -/
theorem C7_witness :
    table_name_check (("Part").toList) = .error .missingOwnerQualifier ∧
    table_name_check (("monitor.Part").toList) = .ok () :=
  ⟨(C7_owner_separator _).1 (by decide),
   (C7_owner_separator _).2.1 (("monitor").toList) (("Part").toList)
     (by decide) (by decide) (by decide)⟩

/-- C10 counterexample: the supplied value `","` (two blank comma-separated
tokens) parses to the empty owner list, refuting non-emptiness for every
configuration value. -/
theorem C10_counterexample :
    parse_authorized_users (some ((",").toList)) = [] := by decide

/-- C10 (amended): an absent value falls back to the documented default
owners `monitor, ExtensionsUser`; a supplied value parses to the
whitespace-trimmed non-blank tokens, a list that is non-empty whenever at
least one comma-separated token is non-blank (an all-blank value yields
the empty list); every parsed name is trimmed and non-empty. -/
theorem C10_amended_parse :
    parse_authorized_users none = [("monitor").toList, ("ExtensionsUser").toList] ∧
    (∀ (v u : List Char), u ∈ v.splitOn ',' → pyStrip u ≠ [] →
      parse_authorized_users (some v) ≠ []) ∧
    (∀ (v x : List Char), x ∈ parse_authorized_users (some v) →
      x ≠ [] ∧ pyStrip x = x) := by
  refine ⟨by decide, ?_, ?_⟩
  · intro v u hu hne
    have hmem : pyStrip u ∈ parse_authorized_users (some v) := by
      rw [parse_authorized_users_some]
      exact List.mem_filter.mpr ⟨List.mem_map_of_mem pyStrip hu,
        by simp [List.isEmpty_iff, hne]⟩
    exact List.ne_nil_of_mem hmem
  · intro v x hx
    rw [parse_authorized_users_some] at hx
    obtain ⟨hmap, hcond⟩ := List.mem_filter.mp hx
    obtain ⟨u, hu, rfl⟩ := List.mem_map.mp hmap
    refine ⟨?_, pyStrip_idem u⟩
    intro hnil
    rw [hnil] at hcond
    simp at hcond

/-- C10 witness: the non-emptiness conclusion at the value `" a , b "`. -/
theorem C10_witness :
    parse_authorized_users (some ((" a , b ").toList)) ≠ [] :=
  C10_amended_parse.2.1 ((" a , b ").toList) ((" a ").toList)
    (by decide) (by decide)

/-- C1 (spec-modelled): the authorization pass collects the owner names
referenced immediately after `FROM`/`JOIN` tokens and rejects with
`UNAUTHORIZED_OWNER` (before any execution) exactly when some referenced
owner is outside the authorized set, case-insensitively; a query
referencing only authorized owners, or no owner at all, passes.  The
spec's own examples are confirmed concretely. -/
theorem C1_authorize_owners :
    (∀ (q : List Char) (owners : List (List Char)),
      (unauthorizedOwners q owners ≠ [] →
        authorize q owners =
          .unauthorizedOwner (sortOwners (unauthorizedOwners q owners))) ∧
      (unauthorizedOwners q owners = [] → authorize q owners = .accepted) ∧
      (referencedOwners q = [] → authorize q owners = .accepted)) ∧
    authorize (("SELECT * FROM dbo.Foo").toList) [("dbo").toList] = .accepted ∧
    authorize (("SELECT * FROM evil.Foo").toList) [("dbo").toList] =
      .unauthorizedOwner [("evil").toList] ∧
    authorize (("select * from dbo.Foo").toList) [("DBO").toList] = .accepted ∧
    authorize (("SELECT 1").toList) [("dbo").toList] = .accepted := by
  refine ⟨?_, by decide, by decide, by decide, by decide⟩
  intro q owners
  refine ⟨?_, ?_, ?_⟩
  · intro h
    rw [authorize_eq, if_neg (by simp [List.isEmpty_iff, h])]
  · intro h
    rw [authorize_eq, if_pos (by simp [List.isEmpty_iff, h])]
  · intro h
    rw [authorize_eq, if_pos (by simp [List.isEmpty_iff, unauthorizedOwners, h])]

/-- C1 witness at the spec's reject and trivial-accept examples. -/
theorem C1_witness :
    authorize (("SELECT * FROM evil.Foo").toList) [("dbo").toList] =
      .unauthorizedOwner (sortOwners (unauthorizedOwners
        (("SELECT * FROM evil.Foo").toList) [("dbo").toList])) ∧
    authorize (("SELECT 1").toList) [("dbo").toList] = .accepted :=
  ⟨(C1_authorize_owners.1 _ _).1 (by decide),
   (C1_authorize_owners.1 _ _).2.2 (by decide)⟩

/-- C9: the builder rejects a WHERE clause containing a statement separator
or comment marker; with columns other than `*` it rejects the first
comma-separated token that is not an identifier, naming that token; columns
of valid identifiers are accepted, and a successful build assembles the
caller's `columns` string verbatim into the fixed clause order (so the
caller's column order is preserved). -/
theorem C9_builder_field_checks :
    (∀ (t c w : List Char) (o : Option (List Char)) (l : Option Nat)
       (q1 p : List Char),
      p ∈ whereBadPats → hasSub p w = true → tableNameOk t = true →
      columnsCheck c = .ok () → build_base c t l = .ok q1 →
      query_builder_build t c (some w) o l = .error .invalidWhere) ∧
    (∀ (t c : List Char) (w o : Option (List Char)) (l : Option Nat)
       (pre post : List (List Char)) (bad : List Char),
      tableNameOk t = true → c ≠ ("*").toList →
      colTokens c = pre ++ bad :: post → (∀ x ∈ pre, isIdent x = true) →
      isIdent bad = false →
      query_builder_build t c w o l = .error (.invalidColumn bad)) ∧
    (∀ c : List Char, c ≠ ("*").toList →
      (∀ x ∈ colTokens c, isIdent x = true) → columnsCheck c = .ok ()) ∧
    (∀ (t c : List Char) (w o : Option (List Char)) (l : Option Nat)
       (q : List Char), query_builder_build t c w o l = .ok q →
      q = joinSpace (buildSegs t c w o l)) := by
  refine ⟨?_, ?_, ?_, ?_⟩
  · intro t c w o l q1 p hP hsub hT hC hB
    have hpne : p ≠ [] := by
      intro hp
      subst hp
      revert hP
      decide
    have hwne : w ≠ [] := by
      intro hw
      subst hw
      cases p with
      | nil => exact hpne rfl
      | cons x xs => simp [hasSub, List.isPrefixOf] at hsub
    have hwc : whereCheck w = .error .invalidWhere := by
      unfold whereCheck
      rw [if_pos (List.any_eq_true.mpr ⟨p, hP, hsub⟩)]
    have hbw : build_where q1 (some w) = .error .invalidWhere := by
      simp [build_where, hwne, hwc]
    unfold query_builder_build
    rw [hT]
    simp only [Bool.not_true, Bool.false_eq_true, if_false]
    rw [hC]
    dsimp only []
    rw [hB]
    dsimp only []
    rw [hbw]
  · intro t c w o l pre post bad hT hcne htok hpre hbad
    have hC : columnsCheck c = .error (.invalidColumn bad) := by
      unfold columnsCheck
      rw [if_neg hcne, htok,
        find?_first (p := fun x => !isIdent x)
          (fun x hx => by simp [hpre x hx]) (by simp [hbad])]
    unfold query_builder_build
    rw [hT]
    simp only [Bool.not_true, Bool.false_eq_true, if_false]
    rw [hC]
  · intro c hne hall
    unfold columnsCheck
    rw [if_neg hne, List.find?_eq_none.mpr (fun x hx => by simp [hall x hx])]
  · intro t c w o l q h
    exact (build_ok_shape h).2.2

/-- C9 witness: a WHERE clause with `;` is rejected; the single malformed
column token `Id; DROP TABLE x` is rejected by name. -/
theorem C9_witness :
    query_builder_build (("dbo.T").toList) (("*").toList)
      (some (("x = 1; DROP TABLE y").toList)) none none = .error .invalidWhere ∧
    query_builder_build (("dbo.T").toList) (("Id; DROP TABLE x").toList)
      none none none = .error (.invalidColumn (("Id; DROP TABLE x").toList)) :=
  ⟨C9_builder_field_checks.1 (("dbo.T").toList) (("*").toList)
      (("x = 1; DROP TABLE y").toList) none none
      (("SELECT * FROM dbo.T").toList) ((";").toList)
      (by decide) (by decide) (by decide) (by decide) (by decide),
   C9_builder_field_checks.2.1 (("dbo.T").toList) (("Id; DROP TABLE x").toList)
      none none none [] [] (("Id; DROP TABLE x").toList)
      (by decide) (by decide) (by decide) (by decide) (by decide)⟩

/-- C8: the builder assembles the clauses in the fixed order
`SELECT [TOP limit] columns FROM table [WHERE w] [ORDER BY o]`; the spec's
example input builds exactly `SELECT TOP 10 Id,PartNumber FROM monitor.Part`,
and that literal string is what the builder tool hands to `execute_query`
together with the caller's limit. -/
theorem C8_assembly_order :
    (∀ (t c ws os : List Char) (l : Nat),
      tableNameOk t = true → columnsCheck c = .ok () → 0 < l → l ≤ 10000 →
      ws ≠ [] → whereCheck ws = .ok () → os ≠ [] → orderByOk os = true →
      query_builder_build t c (some ws) (some os) (some l) =
        .ok (((("SELECT TOP ").toList ++ natChars l ++ (" ").toList ++ c ++
          (" FROM ").toList ++ t) ++ (" WHERE ").toList ++ ws) ++
          (" ORDER BY ").toList ++ os)) ∧
    query_builder_build (("monitor.Part").toList) (("Id,PartNumber").toList)
      none none (some 10) =
      .ok (("SELECT TOP 10 Id,PartNumber FROM monitor.Part").toList) ∧
    (∀ (α : Type) (cfg : Config) (available : List α),
      query_builder cfg available (("monitor.Part").toList)
        (("Id,PartNumber").toList) none none (some 10) =
        match execute_query cfg available
            (("SELECT TOP 10 Id,PartNumber FROM monitor.Part").toList)
            (some 10) with
        | .error e => .error (.exec e)
        | .ok r => .ok r) := by
  refine ⟨?_, by decide, ?_⟩
  · intro t c ws os l hT hC hl0 hl1 hws hwc hos hord
    have hb : build_base c t (some l) =
        .ok (("SELECT TOP ").toList ++ natChars l ++ (" ").toList ++ c ++
          (" FROM ").toList ++ t) := by
      unfold build_base
      dsimp only []
      rw [if_pos (show l ≠ 0 by omega), if_neg (show ¬(l > 10000) by omega)]
    have hw : build_where (("SELECT TOP ").toList ++ natChars l ++ (" ").toList ++
        c ++ (" FROM ").toList ++ t) (some ws) =
        .ok ((("SELECT TOP ").toList ++ natChars l ++ (" ").toList ++ c ++
          (" FROM ").toList ++ t) ++ (" WHERE ").toList ++ ws) := by
      simp [build_where, hws, hwc]
    have ho : build_order ((("SELECT TOP ").toList ++ natChars l ++ (" ").toList ++
        c ++ (" FROM ").toList ++ t) ++ (" WHERE ").toList ++ ws) (some os) =
        .ok (((("SELECT TOP ").toList ++ natChars l ++ (" ").toList ++ c ++
          (" FROM ").toList ++ t) ++ (" WHERE ").toList ++ ws) ++
          (" ORDER BY ").toList ++ os) := by
      simp [build_order, hos, hord]
    unfold query_builder_build
    rw [hT]
    simp only [Bool.not_true, Bool.false_eq_true, if_false]
    rw [hC]
    dsimp only []
    rw [hb]
    dsimp only []
    rw [hw]
    dsimp only []
    rw [ho]
  · intro α cfg av
    rfl

/-- C8 witness for the general assembly clause, with every optional clause
present. -/
theorem C8_witness :
    query_builder_build (("dbo.T").toList) (("Id").toList)
      (some (("x = 1").toList)) (some (("Name").toList)) (some 5) =
      .ok (("SELECT TOP 5 Id FROM dbo.T WHERE x = 1 ORDER BY Name").toList) :=
  C8_assembly_order.1 (("dbo.T").toList) (("Id").toList) (("x = 1").toList)
    (("Name").toList) 5 (by decide) (by decide) (by decide) (by decide)
    (by decide) (by decide) (by decide) (by decide)

/-- C3 counterexample: `SELECT GRANT FROM T` contains the denylisted
keyword `GRANT` as a whole word, yet `validate_query` reports it valid —
the validate-only path checks just seven of the eleven keywords. -/
theorem C3_counterexample :
    (("GRANT").toList ∈ dangerousKeywords) ∧
    containsWord (("GRANT").toList)
      (pyUpper (("SELECT GRANT FROM T").toList)) = true ∧
    validate_query (("SELECT GRANT FROM T").toList) = .valid := by decide

/-- C3 (amended): on inputs whose trimmed uppercase begins with `SELECT`,
`execute_query` rejects every whole-word occurrence of any of the eleven
denylisted keywords (any character case), naming an offending keyword;
`validate_query` does the same only for the seven keywords
DROP, DELETE, INSERT, UPDATE, CREATE, ALTER, TRUNCATE. -/
theorem C3_amended_keywords :
    (∀ (q kw : List Char), kw ∈ dangerousKeywords →
      containsWord kw (pyUpper q) = true →
      ("SELECT").toList.isPrefixOf (pyUpper (pyStrip q)) = true →
      ∃ kw', kw' ∈ dangerousKeywords ∧ containsWord kw' (pyUpper q) = true ∧
        classifyCheck q = some (.dangerousKeyword kw') ∧
        (∀ (α : Type) (cfg : Config) (available : List α) (limit : Option Nat),
          execute_query cfg available q limit =
            .error (.dangerousKeyword kw'))) ∧
    (∀ (q kw : List Char), kw ∈ validateKeywords →
      containsWord kw (pyUpper q) = true →
      ("SELECT").toList.isPrefixOf (pyUpper (pyStrip q)) = true →
      ∃ kw', kw' ∈ validateKeywords ∧ containsWord kw' (pyUpper q) = true ∧
        validate_query q = .dangerousKeyword kw') := by
  constructor
  · intro q kw hkw hcw hsel
    have hne := dangerous_nonempty kw hkw
    have hword := dangerous_words kw hkw
    have hcw' : containsWord kw (pyUpper (pyStrip q)) = true := by
      rw [cw_upper_pyStrip hne hword]
      exact hcw
    cases hf : dangerousKeywords.find?
        (fun k => containsWord k (pyUpper (pyStrip q))) with
    | none =>
      exact absurd hcw' (by simpa using List.find?_eq_none.mp hf kw hkw)
    | some kw' =>
      have hmem := List.mem_of_find?_eq_some hf
      have hp := List.find?_some hf
      have hcw'' : containsWord kw' (pyUpper q) = true := by
        rw [← cw_upper_pyStrip (dangerous_nonempty kw' hmem)
          (dangerous_words kw' hmem)]
        exact hp
      have hcls : classifyCheck q = some (.dangerousKeyword kw') := by
        rw [classifyCheck_eq, hsel]
        simp only [Bool.not_true, Bool.false_eq_true, if_false]
        rw [hf]
      exact ⟨kw', hmem, hcw'', hcls, fun α cfg av lim => by
        unfold execute_query
        rw [hcls]⟩
  · intro q kw hkw hcw hsel
    have hmemD := validate_sub_dangerous kw hkw
    have hne := dangerous_nonempty kw hmemD
    have hword := dangerous_words kw hmemD
    have hcw' : containsWord kw (pyUpper (pyStrip q)) = true := by
      rw [cw_upper_pyStrip hne hword]
      exact hcw
    cases hf : validateKeywords.find?
        (fun k => containsWord k (pyUpper (pyStrip q))) with
    | none =>
      exact absurd hcw' (by simpa using List.find?_eq_none.mp hf kw hkw)
    | some kw' =>
      have hmem := List.mem_of_find?_eq_some hf
      have hp := List.find?_some hf
      have hmemD' := validate_sub_dangerous kw' hmem
      have hcw'' : containsWord kw' (pyUpper q) = true := by
        rw [← cw_upper_pyStrip (dangerous_nonempty kw' hmemD')
          (dangerous_words kw' hmemD')]
        exact hp
      refine ⟨kw', hmem, hcw'', ?_⟩
      rw [validate_query_eq, hsel]
      simp only [Bool.not_true, Bool.false_eq_true, if_false]
      rw [hf]

/-- C3 witness: `execute_query` rejects `SELECT GRANT FROM T` naming a
keyword, and `validate_query` rejects `SELECT DROP FROM T`. -/
theorem C3_witness :
    (∃ kw', kw' ∈ dangerousKeywords ∧
      containsWord kw' (pyUpper (("SELECT GRANT FROM T").toList)) = true ∧
      classifyCheck (("SELECT GRANT FROM T").toList) =
        some (.dangerousKeyword kw') ∧
      (∀ (α : Type) (cfg : Config) (available : List α) (limit : Option Nat),
        execute_query cfg available (("SELECT GRANT FROM T").toList) limit =
          .error (.dangerousKeyword kw'))) ∧
    (∃ kw', kw' ∈ validateKeywords ∧
      containsWord kw' (pyUpper (("SELECT DROP FROM T").toList)) = true ∧
      validate_query (("SELECT DROP FROM T").toList) = .dangerousKeyword kw') :=
  ⟨C3_amended_keywords.1 (("SELECT GRANT FROM T").toList) (("GRANT").toList)
      (by decide) (by decide) (by decide),
   C3_amended_keywords.2 (("SELECT DROP FROM T").toList) (("DROP").toList)
      (by decide) (by decide) (by decide)⟩

/-- C2 counterexample: the field values `table_name = "dbo.T"`,
`columns = "DELETE"` pass every per-field validation and build
`SELECT DELETE FROM dbo.T`, which the classifier rejects as containing the
denylisted keyword `DELETE` — the builder can produce output the
classifier rejects. -/
theorem C2_counterexample :
    query_builder_build (("dbo.T").toList) (("DELETE").toList) none none none =
      .ok (("SELECT DELETE FROM dbo.T").toList) ∧
    classifyCheck (("SELECT DELETE FROM dbo.T").toList) =
      some (.dangerousKeyword (("DELETE").toList)) := by decide

/-- C2 (amended): every successfully built query starts with `SELECT`
(after the classifier's own strip/uppercase), so the classifier never
rejects builder output as not-a-SELECT; and whenever no field of the spec
contains a denylisted keyword as a whole word, the classifier accepts the
built query outright. -/
theorem C2_amended_roundtrip :
    ∀ (t c : List Char) (w o : Option (List Char)) (l : Option Nat)
      (q : List Char),
      query_builder_build t c w o l = .ok q →
      ("SELECT").toList.isPrefixOf (pyUpper (pyStrip q)) = true ∧
      ((∀ kw ∈ dangerousKeywords,
          containsWord kw (pyUpper t) = false ∧
          containsWord kw (pyUpper c) = false ∧
          (∀ ws, w = some ws → containsWord kw (pyUpper ws) = false) ∧
          (∀ os, o = some os → containsWord kw (pyUpper os) = false)) →
        classifyCheck q = none) := by
  intro t c w o l q h
  obtain ⟨hT, hC, hshape⟩ := build_ok_shape h
  subst hshape
  have hpre : ("SELECT").toList.isPrefixOf
      (pyUpper (pyStrip (joinSpace (buildSegs t c w o l)))) = true := by
    rw [built_split]
    exact startsSelect_built _ _
  refine ⟨hpre, ?_⟩
  intro hfields
  have hnone : dangerousKeywords.find? (fun kw =>
      containsWord kw (pyUpper (pyStrip (joinSpace (buildSegs t c w o l))))) =
      none := by
    refine List.find?_eq_none.mpr (fun kw hkw => ?_)
    rw [Bool.not_eq_true,
      cw_upper_pyStrip (dangerous_nonempty kw hkw) (dangerous_words kw hkw)]
    obtain ⟨h1, h2, h3, h4⟩ := hfields kw hkw
    exact cw_built_false hkw h1 h2 h3 h4
  rw [classifyCheck_eq, hpre]
  simp only [Bool.not_true, Bool.false_eq_true, if_false]
  rw [hnone]

/-- C2 witness: the end-to-end example spec builds a query the classifier
accepts. -/
theorem C2_witness :
    classifyCheck (("SELECT TOP 10 Id,PartNumber FROM monitor.Part").toList) =
      none :=
  (C2_amended_roundtrip (("monitor.Part").toList) (("Id,PartNumber").toList)
    none none (some 10)
    (("SELECT TOP 10 Id,PartNumber FROM monitor.Part").toList)
    (by decide)).2 (by decide)

end SqlAnywhere
